import Mathlib

/-!
Shallow embedding of the particle / morph simulation in `src/Framer.tsx`
(with the simpler variant `src/components/ImageParticleEffect.tsx` agreeing
on all embedded fragments).  Coordinates and colors are embedded as exact
rationals; the JavaScript `Math.sqrt` of a squared distance is modelled by
an explicit parameter `d` constrained by `d * d = distSq …` and `0 ≤ d`.
-/

namespace ImgMorph

/-- Three-dimensional vector over ℚ, embedding `THREE.Vector3`. -/
@[ext] structure Vec3 where
  x : ℚ
  y : ℚ
  z : ℚ
deriving DecidableEq, Repr

namespace Vec3

instance : Add Vec3 := ⟨fun a b => ⟨a.x + b.x, a.y + b.y, a.z + b.z⟩⟩
instance : Sub Vec3 := ⟨fun a b => ⟨a.x - b.x, a.y - b.y, a.z - b.z⟩⟩
instance : Neg Vec3 := ⟨fun a => ⟨-a.x, -a.y, -a.z⟩⟩
instance : SMul ℚ Vec3 := ⟨fun c a => ⟨c * a.x, c * a.y, c * a.z⟩⟩

/-- The zero vector, embedding `new THREE.Vector3()` / `new THREE.Vector3(0,0,0)`. -/
def zero : Vec3 := ⟨0, 0, 0⟩

@[simp] theorem add_x (a b : Vec3) : (a + b).x = a.x + b.x := rfl
@[simp] theorem add_y (a b : Vec3) : (a + b).y = a.y + b.y := rfl
@[simp] theorem add_z (a b : Vec3) : (a + b).z = a.z + b.z := rfl
@[simp] theorem sub_x (a b : Vec3) : (a - b).x = a.x - b.x := rfl
@[simp] theorem sub_y (a b : Vec3) : (a - b).y = a.y - b.y := rfl
@[simp] theorem sub_z (a b : Vec3) : (a - b).z = a.z - b.z := rfl
@[simp] theorem neg_x (a : Vec3) : (-a).x = -a.x := rfl
@[simp] theorem neg_y (a : Vec3) : (-a).y = -a.y := rfl
@[simp] theorem neg_z (a : Vec3) : (-a).z = -a.z := rfl
@[simp] theorem smul_x (c : ℚ) (a : Vec3) : (c • a).x = c * a.x := rfl
@[simp] theorem smul_y (c : ℚ) (a : Vec3) : (c • a).y = c * a.y := rfl
@[simp] theorem smul_z (c : ℚ) (a : Vec3) : (c • a).z = c * a.z := rfl
@[simp] theorem zero_x : zero.x = 0 := rfl
@[simp] theorem zero_y : zero.y = 0 := rfl
@[simp] theorem zero_z : zero.z = 0 := rfl

/-- Dot product, embedding `THREE.Vector3.dot`. -/
def dot (a b : Vec3) : ℚ := a.x * b.x + a.y * b.y + a.z * b.z

/-- Squared length, embedding `THREE.Vector3.lengthSq`. -/
def normSq (a : Vec3) : ℚ := dot a a

/-- Squared distance, embedding `THREE.Vector3.distanceToSquared`. -/
def distSq (a b : Vec3) : ℚ := normSq (a - b)

/-- Linear interpolation, embedding `THREE.Vector3.lerp`:
`this += (v - this) * alpha` componentwise. -/
def lerp (a b : Vec3) (t : ℚ) : Vec3 := a + t • (b - a)

theorem normSq_nonneg (a : Vec3) : 0 ≤ normSq a := by
  have hx := mul_self_nonneg a.x
  have hy := mul_self_nonneg a.y
  have hz := mul_self_nonneg a.z
  simp only [normSq, dot]
  linarith

theorem distSq_nonneg (a b : Vec3) : 0 ≤ distSq a b := normSq_nonneg _

theorem normSq_smul (c : ℚ) (a : Vec3) : normSq (c • a) = c ^ 2 * normSq a := by
  simp only [normSq, dot, smul_x, smul_y, smul_z]
  ring

end Vec3

/-- RGB color over ℚ, embedding `THREE.Color` (alpha discarded). -/
@[ext] structure Color where
  r : ℚ
  g : ℚ
  b : ℚ
deriving DecidableEq, Repr

namespace Color

/-- Linear interpolation, embedding `THREE.Color.lerp`:
`this += (color - this) * alpha` componentwise. -/
def lerp (c1 c2 : Color) (t : ℚ) : Color :=
  ⟨c1.r + (c2.r - c1.r) * t, c1.g + (c2.g - c1.g) * t, c1.b + (c2.b - c1.b) * t⟩

end Color

/-- Cubic ease, embedding `easeInOutCubic` (Framer.tsx line 69). -/
def easeInOutCubic (t : ℚ) : ℚ :=
  if t < 1/2 then 4 * t * t * t else 1 - (-2 * t + 2) ^ 3 / 2

/-- One particle record, embedding the `Particle` interface of Framer.tsx
(lines 52–67).  The simpler variant lacks the two base-color fields; they are
kept here and simply unused by its claims. -/
@[ext] structure Particle where
  id : ℕ
  currentPosition : Vec3
  sourcePosition : Vec3
  targetPosition : Vec3
  velocity : Vec3
  currentColor : Color
  sourceColor : Color
  targetColor : Color
  sourceBaseColor : Color
  targetBaseColor : Color
  attractorPosition : Vec3
  burstPosition : Vec3
  sphereTargetPosition : Vec3
  mouseBurstPosition : Vec3
deriving DecidableEq, Repr

/-- A sampled image point, embedding `{ position, color }` produced by
`getImageParticleData`. -/
structure PData where
  position : Vec3
  color : Color
deriving DecidableEq, Repr

/-- Default sampled point used as the (never-reached) fallback of list lookups. -/
def dfltPData : PData := ⟨Vec3.zero, ⟨0, 0, 0⟩⟩

/-- Indexed map over a list, starting at index `k`.  This is the embedding of
the source's `for (let i = …; i < arr.length; i++)` loops and `forEach((p, i) => …)`
callbacks that read the loop index. -/
def idxMapFrom (f : ℕ → α → β) (k : ℕ) : List α → List β
  | [] => []
  | a :: l => f k a :: idxMapFrom f (k + 1) l

/-- Indexed map starting at 0. -/
def idxMap (f : ℕ → α → β) (l : List α) : List β := idxMapFrom f 0 l

@[simp] theorem idxMapFrom_nil (f : ℕ → α → β) (k : ℕ) : idxMapFrom f k [] = [] := rfl

@[simp] theorem idxMapFrom_cons (f : ℕ → α → β) (k : ℕ) (a : α) (l : List α) :
    idxMapFrom f k (a :: l) = f k a :: idxMapFrom f (k + 1) l := rfl

@[simp] theorem length_idxMapFrom (f : ℕ → α → β) (l : List α) :
    ∀ k, (idxMapFrom f k l).length = l.length := by
  induction l with
  | nil => intro k; rfl
  | cons a l ih => intro k; simp [ih]

@[simp] theorem length_idxMap (f : ℕ → α → β) (l : List α) :
    (idxMap f l).length = l.length := length_idxMapFrom f l 0

theorem getD_idxMapFrom (f : ℕ → α → β) (l : List α) :
    ∀ k i, i < l.length → ∀ (d : α) (d' : β),
      (idxMapFrom f k l).getD i d' = f (k + i) (l.getD i d) := by
  induction l with
  | nil => intro k i h; simp at h
  | cons a l ih =>
    intro k i h d d'
    cases i with
    | zero => simp
    | succ j =>
      simp only [idxMapFrom_cons, List.getD_cons_succ]
      rw [ih (k + 1) j (by simpa using h) d d']
      ring_nf

theorem getD_idxMap (f : ℕ → α → β) (l : List α) (i : ℕ) (h : i < l.length)
    (d : α) (d' : β) : (idxMap f l).getD i d' = f i (l.getD i d) := by
  simpa using getD_idxMapFrom f l 0 i h d d'

/-- Seeding of one particle at index `i` from a sampled point, embedding the
initial-load branch of the source-image effect (Framer.tsx lines 938–959).
`vib` abstracts `applyVibrancy (·, appearance.vibrancy)`, whose HSL internals
none of the claims depend on. -/
def seedParticle (vib : Color → Color) (i : ℕ) (d : PData) : Particle :=
  { id := i
    currentPosition := d.position
    sourcePosition := d.position
    targetPosition := d.position
    velocity := Vec3.zero
    currentColor := vib d.color
    sourceColor := vib d.color
    targetColor := vib d.color
    sourceBaseColor := d.color
    targetBaseColor := d.color
    attractorPosition := d.position
    burstPosition := Vec3.zero
    sphereTargetPosition := Vec3.zero
    mouseBurstPosition := Vec3.zero }

/-- First seeding of the particle array: one particle per sampled point
(`sourceData.map((data, i) => …)`, Framer.tsx line 938). -/
def seedParticles (vib : Color → Color) (data : List PData) : List Particle :=
  idxMap (seedParticle vib) data

/-- Write one sampled point into a particle's source role, embedding the body
of the source-update loops (Framer.tsx lines 994–1027). -/
def setSourceRole (vib : Color → Color) (d : PData) (p : Particle) : Particle :=
  { p with sourcePosition := d.position
           sourceBaseColor := d.color
           sourceColor := vib d.color }

/-- Write one sampled point into a particle's target role, embedding the body
of the target-update loops (Framer.tsx lines 1077–1110 and 1150–1179). -/
def setTargetRole (vib : Color → Color) (d : PData) (p : Particle) : Particle :=
  { p with targetPosition := d.position
           targetBaseColor := d.color
           targetColor := vib d.color }

/-- Index-wraparound re-sampling of the source role, embedding Framer.tsx
lines 988–1028: indices below `min(len particles, len data)` copy `data[i]`,
the rest copy `data[i % numParticles]`. -/
def updateSourceRole (vib : Color → Color) (ps : List Particle) (data : List PData) :
    List Particle :=
  let numParticles := min ps.length data.length
  idxMap (fun i p =>
    if i < numParticles then setSourceRole vib (data.getD i dfltPData) p
    else setSourceRole vib (data.getD (i % numParticles) dfltPData) p) ps

/-- Index-wraparound re-sampling of the target role, embedding Framer.tsx
lines 1071–1111 (and the identical loop at 1146–1180 inside the morph
trigger). -/
def updateTargetRole (vib : Color → Color) (ps : List Particle) (data : List PData) :
    List Particle :=
  let numParticles := min ps.length data.length
  idxMap (fun i p =>
    if i < numParticles then setTargetRole vib (data.getD i dfltPData) p
    else setTargetRole vib (data.getD (i % numParticles) dfltPData) p) ps

/-- Refresh attractor and color to the source role, embedding the at-rest
branch of the source-image effect (Framer.tsx lines 1030–1042). -/
def refreshSourceAtRest (atSource notMorphing : Bool) (ps : List Particle) : List Particle :=
  if atSource ∧ notMorphing then
    ps.map (fun p => { p with attractorPosition := p.sourcePosition
                              currentColor := p.sourceColor })
  else ps

/-- Refresh attractor and color to the target role, embedding the at-rest
branch of the target-image effect (Framer.tsx lines 1113–1125). -/
def refreshTargetAtRest (atTarget notMorphing : Bool) (ps : List Particle) : List Particle :=
  if atTarget ∧ notMorphing then
    ps.map (fun p => { p with attractorPosition := p.targetPosition
                              currentColor := p.targetColor })
  else ps

/-- One re-sampling call after first seeding: either the source-image update
effect (Framer.tsx lines 986–1043) or the target-image update effect (lines
1070–1126), with the respective empty-data guards and at-rest booleans. -/
inductive ResampleOp where
  | updSource (vib : Color → Color) (data : List PData) (atSource notMorphing : Bool)
  | updTarget (vib : Color → Color) (data : List PData) (atTarget notMorphing : Bool)

/-- Apply one re-sampling call to the live particle array. -/
def applyResample (ps : List Particle) : ResampleOp → List Particle
  | .updSource vib data atSource notMorphing =>
      if data.length = 0 then ps
      else refreshSourceAtRest atSource notMorphing (updateSourceRole vib ps data)
  | .updTarget vib data atTarget notMorphing =>
      if data.length = 0 ∨ ps.length = 0 then ps
      else refreshTargetAtRest atTarget notMorphing (updateTargetRole vib ps data)

/-- Morph direction, embedding the non-null values of `MorphDirection`. -/
inductive Dir where
  | toTarget
  | toSource
deriving DecidableEq, Repr

/-- Morph controller state, embedding `morphStateRef.current`
(Framer.tsx lines 259–266); `direction = none` embeds the `null` direction. -/
structure MorphState where
  isMorphing : Bool
  startTime : ℚ
  direction : Option Dir
  duration : ℚ
  phaseOneDuration : ℚ
  phaseTwoDuration : ℚ
deriving DecidableEq, Repr

/-- The initial morph controller state (Framer.tsx lines 259–266). -/
def initMorphState : MorphState :=
  { isMorphing := false, startTime := 0, direction := none
    duration := 4000, phaseOneDuration := 1300, phaseTwoDuration := 1300 }

/-- Pointer interaction state, embedding `mouseInteractionStateRef.current`
with values `"none" | "bursting" | "attracting"`. -/
inductive MouseState where
  | none
  | bursting
  | attracting
deriving DecidableEq, Repr

/-- The mutable state the animation tick reads and writes. -/
structure SimState where
  particles : List Particle
  morph : MorphState
  mouse : MouseState
  mouseStart : ℚ
deriving Repr

/-- Completion snap of one particle, embedding Framer.tsx lines 690–701:
attractor and color are copied from the arrival role selected by
`direction === "toTarget"`. -/
def completeParticle (dir : Option Dir) (p : Particle) : Particle :=
  { p with attractorPosition := if dir = some Dir.toTarget then p.targetPosition
                                else p.sourcePosition
           currentColor := if dir = some Dir.toTarget then p.targetColor
                           else p.sourceColor }

/-- Kinematic pointer override of one particle, embedding Framer.tsx lines
646–669: lerp the position toward the burst / orbit target with factor 0.08
or 0.04 and derive the velocity as the position delta.  `ms` is the mouse
state captured at the top of the tick; `pointer` the projected pointer
world position `pos`. -/
def mouseOverrideParticle (ms : MouseState) (pointer : Vec3) (p : Particle) : Particle :=
  let lerpFactor : ℚ := if ms = MouseState.bursting then 8/100 else 4/100
  let targetPosition : Vec3 :=
    if ms = MouseState.bursting then p.mouseBurstPosition
    else pointer + p.sphereTargetPosition
  let newPos := Vec3.lerp p.currentPosition targetPosition lerpFactor
  { p with currentPosition := newPos
           velocity := newPos - p.currentPosition }

/-- One animation tick, embedding the control flow of `animate`
(Framer.tsx lines 640–897) at time `now`:

* if a pointer interaction is active, every particle gets the kinematic
  override and the function returns early (lines 643–674) — the morph branch
  and the force passes are skipped entirely;
* otherwise, if a morph is in flight and `elapsedTime >= duration`, each
  particle is snapped to the arrival role, `isMorphing` is cleared and the
  completion callback value is emitted (lines 689–704);
* otherwise, if a morph is in flight, the three-phase attractor/color update
  runs (lines 706–800), abstracted here by `phase elapsed i n p` because its
  sphere/swirl arithmetic is transcendental — the tick-level claims hold for
  every `phase`;
* in all non-early-return cases the push-force, integration and collision
  passes (lines 803–877) then run, abstracted by `forces` for the same
  reason; they are embedded exactly at particle/pair level separately below.

The second component is `some d` exactly when `onMorphComplete` was invoked
this tick, with the `direction` it was invoked with. -/
def animateTick (phase : ℚ → ℕ → ℕ → Particle → Particle)
    (forces : List Particle → List Particle)
    (pointer : Vec3) (now : ℚ) (st : SimState) : SimState × Option Dir :=
  if st.mouse ≠ MouseState.none then
    let newMouse :=
      if st.mouse = MouseState.bursting ∧ now - st.mouseStart > 400 then
        MouseState.attracting
      else st.mouse
    ({ st with particles := st.particles.map (mouseOverrideParticle st.mouse pointer)
               mouse := newMouse }, none)
  else if st.morph.isMorphing then
    let elapsedTime := now - st.morph.startTime
    if st.morph.duration ≤ elapsedTime then
      let ps := st.particles.map (completeParticle st.morph.direction)
      ({ st with particles := forces ps
                 morph := { st.morph with isMorphing := false } },
       st.morph.direction)
    else
      let n := st.particles.length
      let ps := idxMap (fun i p => phase elapsedTime i n p) st.particles
      ({ st with particles := forces ps }, none)
  else
    ({ st with particles := forces st.particles }, none)

/-- Run a sequence of ticks, collecting the completion callbacks in order. -/
def runTicks (phase : ℚ → ℕ → ℕ → Particle → Particle)
    (forces : List Particle → List Particle) (pointer : Vec3) :
    List ℚ → SimState → SimState × List Dir
  | [], st => (st, [])
  | t :: ts, st =>
    let r := animateTick phase forces pointer t st
    let rest := runTicks phase forces pointer ts r.1
    (rest.1, r.2.toList ++ rest.2)

/-- The morph trigger effect, embedding Framer.tsx lines 1138–1202.
`dirOpt` is the `morphDirection` prop, `targetData` the contents of
`targetParticleDataRef` (none while no target sampling has completed),
`offsets i` the random burst cube offset `(Math.random()-0.5)*300`
drawn per particle.  When the guards pass, the target role is re-written by
wraparound, every particle draws a fresh `burstPosition`, and the morph
state is (re)started at `now` — the code contains no `isMorphing` check. -/
def triggerMorph (vib : Color → Color) (offsets : ℕ → Vec3)
    (targetData : Option (List PData)) (dirOpt : Option Dir) (now : ℚ)
    (st : SimState) : SimState :=
  match dirOpt, targetData with
  | some dir, some tdata =>
    if st.particles.length = 0 ∨ tdata.length = 0 then st
    else
      let ps1 := updateTargetRole vib st.particles tdata
      let ps2 := idxMap (fun i p =>
        { p with burstPosition :=
            (if dir = Dir.toTarget then p.sourcePosition else p.targetPosition)
              + offsets i }) ps1
      { st with particles := ps2
                morph := { st.morph with isMorphing := true
                                         startTime := now
                                         direction := some dir } }
  | _, _ => st

/-- Per-particle force integration, embedding the first loop of the tick
(Framer.tsx lines 863–872): the return force `(attractor − current) ×
returnStrength` is added to the velocity the push pass may already have
modified, the sum is damped, and the damped velocity moves the position. -/
def integrateParticle (returnStrength damping : ℚ) (p : Particle) : Particle :=
  let returnForce := returnStrength • (p.attractorPosition - p.currentPosition)
  let v1 := p.velocity + returnForce
  let v2 := damping • v1
  { p with velocity := v2
           currentPosition := p.currentPosition + v2 }

/-- Per-particle push-force update, embedding the body of the push grid query
(Framer.tsx lines 838–855).  `pos` is the projected pointer position and `d`
stands for `Math.sqrt(distanceSq)`, supplied with the side conditions
`d * d = distSq p.currentPosition pos` and `0 ≤ d` in the theorems.  Returns
the new velocity. -/
def pushVelocity (pushRadius pushStrength : ℚ) (pos : Vec3) (d : ℚ)
    (p : Particle) : Vec3 :=
  let distanceSq := Vec3.distSq p.currentPosition pos
  if 1/1000000 < distanceSq ∧ distanceSq < pushRadius * pushRadius then
    let strength := (pushRadius - d) / pushRadius * pushStrength / d
    p.velocity + strength • (p.currentPosition - pos)
  else p.velocity

/-- Spatial-hash cell of a point, embedding `getCellKey` (Framer.tsx lines
89–93 and 815–818); the string key `"x_y_z"` is modelled as the integer
triple it encodes. -/
def cellCoord (cellSize : ℚ) (v : Vec3) : ℤ × ℤ × ℤ :=
  (⌊v.x / cellSize⌋, ⌊v.y / cellSize⌋, ⌊v.z / cellSize⌋)

/-- Whether a pair is resolved by `handleCollisions`, embedding the guard
`distanceSq > 0 && distanceSq < collisionDistSq` (Framer.tsx lines 127–130). -/
def pairColliding (collisionDist : ℚ) (p1 p2 : Vec3) : Prop :=
  0 < Vec3.distSq p1 p2 ∧ Vec3.distSq p1 p2 < collisionDist * collisionDist

instance (collisionDist : ℚ) (p1 p2 : Vec3) :
    Decidable (pairColliding collisionDist p1 p2) := by
  unfold pairColliding; infer_instance

/-- Resolution of one candidate pair, embedding the inner loop body of
`handleCollisions` (Framer.tsx lines 119–165) with `collisionDist =
particleSize * 2` and `d` standing for `Math.sqrt(distanceSq)`: positional
correction by half the overlap along the connecting normal, then an
impulse with restitution 0.5 only when the pair is approaching
(`velocityAlongNormal > 0` skips the impulse, not the correction).
Returns `((p1', p2'), (v1', v2'))`. -/
def resolvePair (collisionDist d : ℚ) (p1 p2 v1 v2 : Vec3) :
    (Vec3 × Vec3) × (Vec3 × Vec3) :=
  if pairColliding collisionDist p1 p2 then
    let overlap := (collisionDist - d) * (1/2)
    let collisionNormal := (1/d) • (p1 - p2)
    let correction := overlap • collisionNormal
    let q1 := p1 + correction
    let q2 := p2 - correction
    let relativeVelocity := v1 - v2
    let velocityAlongNormal := Vec3.dot relativeVelocity collisionNormal
    if 0 < velocityAlongNormal then ((q1, q2), (v1, v2))
    else
      let restitution : ℚ := 1/2
      let impulseScalar := -(1 + restitution) * velocityAlongNormal
      let impulse := (impulseScalar * (1/2)) • collisionNormal
      ((q1, q2), (v1 + impulse, v2 - impulse))
  else ((p1, p2), (v1, v2))

/-- One scalar step of the free (no push, no pointer, fixed attractor)
integrator on a single coordinate: the pair is `(position, velocity)`. -/
def stepScalar (returnStrength damping attr : ℚ) (xv : ℚ × ℚ) : ℚ × ℚ :=
  let v1 := xv.2 + (attr - xv.1) * returnStrength
  let v2 := v1 * damping
  (xv.1 + v2, v2)

/-- Iterated scalar steps. -/
def iterScalar (returnStrength damping attr : ℚ) (xv : ℚ × ℚ) : ℕ → ℚ × ℚ
  | 0 => xv
  | n + 1 => stepScalar returnStrength damping attr (iterScalar returnStrength damping attr xv n)

/-- Iterated free ticks of one particle (no push force, no pointer
interaction, no morph: each tick is exactly the integration loop). -/
def iterateFree (returnStrength damping : ℚ) (p : Particle) : ℕ → Particle
  | 0 => p
  | n + 1 => integrateParticle returnStrength damping (iterateFree returnStrength damping p n)

/-- Default particle used as the (never-reached) fallback of list lookups. -/
def dfltParticle : Particle := seedParticle id 0 dfltPData

/-- Concrete sampled point used by witnesses. -/
def p0 : PData := ⟨⟨1, 2, 3⟩, ⟨1, 0, 0⟩⟩

/-- Concrete sampled point used by witnesses. -/
def p1 : PData := ⟨⟨4, 5, 6⟩, ⟨0, 1, 0⟩⟩

/-- Concrete three-particle array used by witnesses. -/
def ps3 : List Particle := seedParticles id [p0, p1, ⟨⟨7, 8, 9⟩, ⟨0, 0, 1⟩⟩]

/-- Concrete particle at the origin used by witnesses. -/
def wp : Particle := dfltParticle

section Theorems

open Vec3

/-- Helper: the wraparound role updates preserve the array length. -/
theorem length_updateSourceRole (vib : Color → Color) (ps : List Particle)
    (data : List PData) : (updateSourceRole vib ps data).length = ps.length := by
  simp only [updateSourceRole]
  exact length_idxMap _ _

/-- Helper: the wraparound role updates preserve the array length. -/
theorem length_updateTargetRole (vib : Color → Color) (ps : List Particle)
    (data : List PData) : (updateTargetRole vib ps data).length = ps.length := by
  simp only [updateTargetRole]
  exact length_idxMap _ _

/-- Helper: elementwise description of the wraparound target-role update. -/
theorem updateTargetRole_getD (vib : Color → Color) (ps : List Particle)
    (data : List PData) (hle : data.length ≤ ps.length)
    (i : ℕ) (hi : i < ps.length) :
    (updateTargetRole vib ps data).getD i dfltParticle
      = setTargetRole vib (data.getD (i % data.length) dfltPData)
          (ps.getD i dfltParticle) := by
  unfold updateTargetRole
  rw [getD_idxMap _ ps i hi dfltParticle dfltParticle]
  rw [min_eq_right hle]
  by_cases h : i < data.length
  · rw [if_pos h, Nat.mod_eq_of_lt h]
  · rw [if_neg h]

/-- Helper: elementwise description of the wraparound source-role update. -/
theorem updateSourceRole_getD (vib : Color → Color) (ps : List Particle)
    (data : List PData) (hle : data.length ≤ ps.length)
    (i : ℕ) (hi : i < ps.length) :
    (updateSourceRole vib ps data).getD i dfltParticle
      = setSourceRole vib (data.getD (i % data.length) dfltPData)
          (ps.getD i dfltParticle) := by
  unfold updateSourceRole
  rw [getD_idxMap _ ps i hi dfltParticle dfltParticle]
  rw [min_eq_right hle]
  by_cases h : i < data.length
  · rw [if_pos h, Nat.mod_eq_of_lt h]
  · rw [if_neg h]

/-- C5: when a re-sampling call brings fewer points than the live particle
count, every particle index `i ≥ len(data)` receives `data[i % len(data)]`
in its role position, base color and (vibrancy-transformed) role color,
and every `i < len(data)` receives `data[i]`; the live array is never
truncated.  Stated for both the target-role and the source-role update. -/
theorem claim5_wraparound (vib : Color → Color) (ps : List Particle)
    (data : List PData) (hne : data ≠ []) (hlt : data.length < ps.length)
    (i : ℕ) (hi : i < ps.length) :
    (((updateTargetRole vib ps data).getD i dfltParticle).targetPosition
        = (data.getD (i % data.length) dfltPData).position
      ∧ ((updateTargetRole vib ps data).getD i dfltParticle).targetBaseColor
        = (data.getD (i % data.length) dfltPData).color
      ∧ ((updateTargetRole vib ps data).getD i dfltParticle).targetColor
        = vib (data.getD (i % data.length) dfltPData).color)
    ∧ (((updateSourceRole vib ps data).getD i dfltParticle).sourcePosition
        = (data.getD (i % data.length) dfltPData).position
      ∧ ((updateSourceRole vib ps data).getD i dfltParticle).sourceBaseColor
        = (data.getD (i % data.length) dfltPData).color
      ∧ ((updateSourceRole vib ps data).getD i dfltParticle).sourceColor
        = vib (data.getD (i % data.length) dfltPData).color)
    ∧ (i < data.length → i % data.length = i)
    ∧ (updateTargetRole vib ps data).length = ps.length
    ∧ (updateSourceRole vib ps data).length = ps.length := by
  have hle : data.length ≤ ps.length := le_of_lt hlt
  refine ⟨?_, ?_, fun h => Nat.mod_eq_of_lt h, ?_, ?_⟩
  · rw [updateTargetRole_getD vib ps data hle i hi]
    exact ⟨rfl, rfl, rfl⟩
  · rw [updateSourceRole_getD vib ps data hle i hi]
    exact ⟨rfl, rfl, rfl⟩
  · exact length_updateTargetRole vib ps data
  · exact length_updateSourceRole vib ps data

/-- C5 witness at a concrete input: three particles re-sampled from two
points; particle 2 wraps to `data[0]`. -/
theorem claim5_witness :
    (([p0, p1] : List PData) ≠ [] ∧ ([p0, p1] : List PData).length < ps3.length
      ∧ 2 < ps3.length)
    ∧ ((updateTargetRole id ps3 [p0, p1]).getD 2 dfltParticle).targetPosition
        = (([p0, p1] : List PData).getD (2 % 2) dfltPData).position := by
  refine ⟨⟨by simp [p0, p1], by simp [p0, p1, ps3, seedParticles, idxMap],
            by simp [ps3, seedParticles, idxMap]⟩, ?_⟩
  exact (claim5_wraparound id ps3 [p0, p1] (by simp)
    (by simp [p0, p1, ps3, seedParticles, idxMap])
    2 (by simp [ps3, seedParticles, idxMap])).1.1

/-- Helper: any single re-sampling call preserves the particle count. -/
theorem length_applyResample (ps : List Particle) (op : ResampleOp) :
    (applyResample ps op).length = ps.length := by
  cases op with
  | updSource vib data atSource notMorphing =>
    simp only [applyResample, refreshSourceAtRest]
    split
    · rfl
    · split
      · rw [List.length_map, length_updateSourceRole]
      · exact length_updateSourceRole vib ps data
  | updTarget vib data atTarget notMorphing =>
    simp only [applyResample, refreshTargetAtRest]
    split
    · rfl
    · split
      · rw [List.length_map, length_updateTargetRole]
      · exact length_updateTargetRole vib ps data

/-- Helper: any sequence of re-sampling calls preserves the particle count. -/
theorem length_foldl_applyResample (ops : List ResampleOp) :
    ∀ ps : List Particle, (ops.foldl applyResample ps).length = ps.length := by
  induction ops with
  | nil => intro ps; rfl
  | cons op ops ih =>
    intro ps
    simp only [List.foldl_cons]
    rw [ih (applyResample ps op), length_applyResample]

/-- C6: after first seeding, every sequence of source/target re-sampling
calls leaves the particle array length equal to the count established at
seeding, which is the number of initially sampled points. -/
theorem claim6_count_invariant (vib0 : Color → Color) (data0 : List PData)
    (ops : List ResampleOp) :
    (ops.foldl applyResample (seedParticles vib0 data0)).length
        = (seedParticles vib0 data0).length
      ∧ (seedParticles vib0 data0).length = data0.length := by
  exact ⟨length_foldl_applyResample ops _, length_idxMap _ _⟩

/-- C2: on a tick with no pointer interaction, for any push contribution `f`
already accumulated on the velocity, the integration loop produces
`velocity' = damping • (velocity + returnStrength • (attractor − position) + f)`
and `position' = position + velocity'`; damping multiplies the sum of both
force additions and the position update uses the damped velocity.  A particle
at squared distance at least `pushRadius²` from the pointer gets no push
contribution at all.  (Stated prior to the optional collision pass, which the
spec lists as a separate step.) -/
theorem claim2_integration_order (returnStrength damping pushRadius pushStrength : ℚ)
    (pos : Vec3) (d : ℚ) (f : Vec3) (p : Particle) :
    (integrateParticle returnStrength damping
        { p with velocity := p.velocity + f }).velocity
      = damping • (p.velocity
          + returnStrength • (p.attractorPosition - p.currentPosition) + f)
    ∧ (integrateParticle returnStrength damping
        { p with velocity := p.velocity + f }).currentPosition
      = p.currentPosition
        + (integrateParticle returnStrength damping
            { p with velocity := p.velocity + f }).velocity
    ∧ (pushRadius * pushRadius ≤ Vec3.distSq p.currentPosition pos →
        pushVelocity pushRadius pushStrength pos d p = p.velocity) := by
  refine ⟨?_, ?_, ?_⟩
  · show damping • ((p.velocity + f)
        + returnStrength • (p.attractorPosition - p.currentPosition)) = _
    ext <;>
      simp only [Vec3.smul_x, Vec3.smul_y, Vec3.smul_z, Vec3.add_x, Vec3.add_y,
        Vec3.add_z, Vec3.sub_x, Vec3.sub_y, Vec3.sub_z] <;>
      ring
  · rfl
  · intro h
    unfold pushVelocity
    rw [if_neg]
    rintro ⟨-, h2⟩
    exact absurd h (not_le.mpr h2)

/-- C2 witness at a concrete input. -/
theorem claim2_witness :
    ((60 : ℚ) * 60 ≤ Vec3.distSq wp.currentPosition ⟨100, 0, 0⟩)
    ∧ (integrateParticle (1/50) (23/25)
          { wp with velocity := wp.velocity + ⟨1, 0, 0⟩ }).velocity
        = (23/25 : ℚ) • (wp.velocity
            + (1/50 : ℚ) • (wp.attractorPosition - wp.currentPosition)
            + ⟨1, 0, 0⟩) := by
  constructor
  · simp [wp, dfltParticle, seedParticle, dfltPData, Vec3.distSq, Vec3.normSq,
      Vec3.dot, Vec3.zero]
    norm_num
  · exact (claim2_integration_order (1/50) (23/25) 60 (4/5) ⟨100, 0, 0⟩ 0
      ⟨1, 0, 0⟩ wp).1

/-- Helper: the corrected positions of a resolved pair, independent of the
velocity branch of the resolution. -/
theorem resolvePair_fst (cd d : ℚ) (p1 p2 v1 v2 : Vec3)
    (hcol : pairColliding cd p1 p2) :
    (resolvePair cd d p1 p2 v1 v2).1
      = (p1 + ((cd - d) * (1/2)) • ((1/d) • (p1 - p2)),
         p2 - ((cd - d) * (1/2)) • ((1/d) • (p1 - p2))) := by
  unfold resolvePair
  rw [if_pos hcol]
  dsimp only
  split <;> rfl

/-- Helper: in exact arithmetic the positional correction puts a resolved
pair at squared distance exactly `collisionDist²`. -/
theorem resolvePair_newDistSq (cd d : ℚ) (p1 p2 v1 v2 : Vec3)
    (hd : d * d = Vec3.distSq p1 p2) (hd0 : 0 ≤ d)
    (hcol : pairColliding cd p1 p2) :
    Vec3.distSq (resolvePair cd d p1 p2 v1 v2).1.1
        (resolvePair cd d p1 p2 v1 v2).1.2 = cd * cd := by
  have hdpos : 0 < d := by
    rcases eq_or_lt_of_le hd0 with h | h
    · exfalso
      have hpos := hcol.1
      rw [← hd, ← h] at hpos
      norm_num at hpos
    · exact h
  have hdne : d ≠ 0 := ne_of_gt hdpos
  rw [resolvePair_fst cd d p1 p2 v1 v2 hcol]
  have hq : (p1 + ((cd - d) * (1/2)) • ((1/d) • (p1 - p2)))
      - (p2 - ((cd - d) * (1/2)) • ((1/d) • (p1 - p2)))
      = (cd / d) • (p1 - p2) := by
    ext <;>
      simp only [Vec3.smul_x, Vec3.smul_y, Vec3.smul_z, Vec3.add_x, Vec3.add_y,
        Vec3.add_z, Vec3.sub_x, Vec3.sub_y, Vec3.sub_z] <;>
      field_simp <;>
      ring
  show Vec3.normSq _ = cd * cd
  rw [hq, Vec3.normSq_smul]
  have hnorm : Vec3.normSq (p1 - p2) = d * d := hd.symm
  rw [hnorm]
  field_simp
  ring

/-- C7: a pair resolved by `handleCollisions` (guard `0 < d² < (2·size)²`)
is pushed apart along the connecting normal by half the overlap each, so the
corrected distance is at least the pre-correction distance; a pair whose
squared distance is 0 or at least `(2·size)²` is left completely untouched
(positions and velocities). -/
theorem claim7_separation (particleSize d : ℚ) (p1 p2 v1 v2 : Vec3)
    (hd : d * d = Vec3.distSq p1 p2) (hd0 : 0 ≤ d) :
    (pairColliding (particleSize * 2) p1 p2 →
        Real.sqrt ((Vec3.distSq (resolvePair (particleSize * 2) d p1 p2 v1 v2).1.1
              (resolvePair (particleSize * 2) d p1 p2 v1 v2).1.2 : ℚ) : ℝ)
          ≥ Real.sqrt ((Vec3.distSq p1 p2 : ℚ) : ℝ))
    ∧ (¬ pairColliding (particleSize * 2) p1 p2 →
        resolvePair (particleSize * 2) d p1 p2 v1 v2 = ((p1, p2), (v1, v2))) := by
  constructor
  · intro hcol
    have hnew := resolvePair_newDistSq (particleSize * 2) d p1 p2 v1 v2 hd hd0 hcol
    have hle : Vec3.distSq p1 p2 ≤ particleSize * 2 * (particleSize * 2) :=
      le_of_lt hcol.2
    rw [hnew]
    exact Real.sqrt_le_sqrt (by exact_mod_cast hle)
  · intro hncol
    unfold resolvePair
    rw [if_neg hncol]

/-- C7 witness at a concrete input: a colliding pair at distance 2 with
particle size 3/2. -/
theorem claim7_witness :
    ((2 : ℚ) * 2 = Vec3.distSq ⟨2, 0, 0⟩ ⟨0, 0, 0⟩ ∧ (0 : ℚ) ≤ 2
        ∧ pairColliding ((3/2) * 2) ⟨2, 0, 0⟩ ⟨0, 0, 0⟩)
    ∧ Real.sqrt ((Vec3.distSq
          (resolvePair ((3/2) * 2) 2 ⟨2, 0, 0⟩ ⟨0, 0, 0⟩ Vec3.zero Vec3.zero).1.1
          (resolvePair ((3/2) * 2) 2 ⟨2, 0, 0⟩ ⟨0, 0, 0⟩ Vec3.zero Vec3.zero).1.2 : ℚ) : ℝ)
        ≥ Real.sqrt ((Vec3.distSq (⟨2, 0, 0⟩ : Vec3) ⟨0, 0, 0⟩ : ℚ) : ℝ) := by
  have hd : (2 : ℚ) * 2 = Vec3.distSq ⟨2, 0, 0⟩ ⟨0, 0, 0⟩ := by
    norm_num [Vec3.distSq, Vec3.normSq, Vec3.dot]
  have hcol : pairColliding ((3/2) * 2) ⟨2, 0, 0⟩ ⟨0, 0, 0⟩ := by
    constructor <;> norm_num [Vec3.distSq, Vec3.normSq, Vec3.dot]
  exact ⟨⟨hd, by norm_num, hcol⟩,
    (claim7_separation (3/2) 2 ⟨2, 0, 0⟩ ⟨0, 0, 0⟩ Vec3.zero Vec3.zero hd
      (by norm_num)).1 hcol⟩

/-- C10: in exact arithmetic a resolved pair ends at distance exactly
`2 × particleSize`: each particle moves by `(2·size − d)/2` along the
connecting normal in opposite directions, and the corrected squared distance
equals `(2·size)²`, hence the corrected distance equals `2·size`. -/
theorem claim10_exact_separation (particleSize d : ℚ) (p1 p2 v1 v2 : Vec3)
    (hd : d * d = Vec3.distSq p1 p2) (hd0 : 0 ≤ d) (hsz : 0 ≤ particleSize)
    (hcol : pairColliding (particleSize * 2) p1 p2) :
    (resolvePair (particleSize * 2) d p1 p2 v1 v2).1.1
        = p1 + ((particleSize * 2 - d) * (1/2)) • ((1/d) • (p1 - p2))
    ∧ (resolvePair (particleSize * 2) d p1 p2 v1 v2).1.2
        = p2 - ((particleSize * 2 - d) * (1/2)) • ((1/d) • (p1 - p2))
    ∧ Vec3.distSq (resolvePair (particleSize * 2) d p1 p2 v1 v2).1.1
          (resolvePair (particleSize * 2) d p1 p2 v1 v2).1.2
        = particleSize * 2 * (particleSize * 2)
    ∧ Real.sqrt ((Vec3.distSq (resolvePair (particleSize * 2) d p1 p2 v1 v2).1.1
          (resolvePair (particleSize * 2) d p1 p2 v1 v2).1.2 : ℚ) : ℝ)
        = ((particleSize * 2 : ℚ) : ℝ) := by
  have hfst := resolvePair_fst (particleSize * 2) d p1 p2 v1 v2 hcol
  have hnew := resolvePair_newDistSq (particleSize * 2) d p1 p2 v1 v2 hd hd0 hcol
  refine ⟨?_, ?_, hnew, ?_⟩
  · exact congrArg Prod.fst hfst
  · exact congrArg Prod.snd hfst
  · rw [hnew]
    push_cast
    rw [Real.sqrt_mul_self (by positivity)]

/-- C10 witness at a concrete input: a colliding pair at distance 3 with
particle size 2 ends at distance exactly 4. -/
theorem claim10_witness :
    ((3 : ℚ) * 3 = Vec3.distSq ⟨0, 3, 0⟩ ⟨0, 0, 0⟩ ∧ (0 : ℚ) ≤ 3 ∧ (0 : ℚ) ≤ 2
        ∧ pairColliding (2 * 2) ⟨0, 3, 0⟩ ⟨0, 0, 0⟩)
    ∧ Vec3.distSq (resolvePair (2 * 2) 3 ⟨0, 3, 0⟩ ⟨0, 0, 0⟩ Vec3.zero Vec3.zero).1.1
          (resolvePair (2 * 2) 3 ⟨0, 3, 0⟩ ⟨0, 0, 0⟩ Vec3.zero Vec3.zero).1.2
        = 2 * 2 * (2 * 2) := by
  have hd : (3 : ℚ) * 3 = Vec3.distSq ⟨0, 3, 0⟩ ⟨0, 0, 0⟩ := by
    norm_num [Vec3.distSq, Vec3.normSq, Vec3.dot]
  have hcol : pairColliding ((2 : ℚ) * 2) ⟨0, 3, 0⟩ ⟨0, 0, 0⟩ := by
    constructor <;> norm_num [Vec3.distSq, Vec3.normSq, Vec3.dot]
  exact ⟨⟨hd, by norm_num, by norm_num, hcol⟩,
    (claim10_exact_separation 2 3 ⟨0, 3, 0⟩ ⟨0, 0, 0⟩ Vec3.zero Vec3.zero hd
      (by norm_num) (by norm_num) hcol).2.2.1⟩

/-- Particle sitting 1/1000 world units from the pointer origin, used to
refute C8 as stated. -/
def cex8Particle : Particle := { dfltParticle with currentPosition := ⟨1/1000, 0, 0⟩ }

/-- Particle sitting 5 world units from the pointer origin, used by the C8
witness. -/
def w8Particle : Particle := { dfltParticle with currentPosition := ⟨3, 0, 4⟩ }

/-- C8 counterexample: the code's skip guard is `distanceSq > 1e-6`, a bound
on the squared distance, so a particle at distance `d = 1/1000` (which
satisfies the claim's antecedent `1e-6 ≤ d < pushRadius`) is skipped and
receives no velocity increment, although the claim predicts an increment of
positive magnitude `pushStrength × (pushRadius − d) / pushRadius`. -/
theorem claim8_counterexample :
    ((1/1000000 : ℚ) ≤ 1/1000 ∧ (1/1000 : ℚ) < 60
        ∧ (1/1000 : ℚ) * (1/1000) = Vec3.distSq cex8Particle.currentPosition ⟨0, 0, 0⟩)
    ∧ pushVelocity 60 (4/5) ⟨0, 0, 0⟩ (1/1000) cex8Particle = cex8Particle.velocity
    ∧ (0 : ℚ) < 4/5 * ((60 - 1/1000) / 60) := by
  refine ⟨⟨by norm_num, by norm_num, ?_⟩, ?_, by norm_num⟩
  · norm_num [cex8Particle, dfltParticle, seedParticle, dfltPData, Vec3.distSq,
      Vec3.normSq, Vec3.dot, Vec3.zero]
  · unfold pushVelocity
    rw [if_neg]
    rintro ⟨h1, -⟩
    rw [show Vec3.distSq cex8Particle.currentPosition ⟨0, 0, 0⟩ = 1/1000000 by
      norm_num [cex8Particle, dfltParticle, seedParticle, dfltPData, Vec3.distSq,
        Vec3.normSq, Vec3.dot, Vec3.zero]] at h1
    exact absurd h1 (by norm_num)

/-- Helper: two points whose coordinates differ by less than the cell size
land in the same or an adjacent grid cell along that axis. -/
theorem floor_cell_adjacent (cs a b : ℚ) (hcs : 0 < cs) (hlo : -cs < a - b)
    (hhi : a - b < cs) : ⌊b / cs⌋ - 1 ≤ ⌊a / cs⌋ ∧ ⌊a / cs⌋ ≤ ⌊b / cs⌋ + 1 := by
  have hcs' : cs ≠ 0 := ne_of_gt hcs
  constructor
  · have h1 : (b - cs) / cs ≤ a / cs := by
      rw [div_le_div_iff hcs hcs]
      nlinarith
    have h2 : (b - cs) / cs = b / cs - 1 := by field_simp
    have h3 : ⌊b / cs - 1⌋ ≤ ⌊a / cs⌋ := Int.floor_le_floor (by rw [← h2]; exact h1)
    calc ⌊b / cs⌋ - 1 = ⌊b / cs - 1⌋ := (Int.floor_sub_one _).symm
      _ ≤ ⌊a / cs⌋ := h3
  · have h1 : a / cs ≤ (b + cs) / cs := by
      rw [div_le_div_iff hcs hcs]
      nlinarith
    have h2 : (b + cs) / cs = b / cs + 1 := by field_simp
    have h3 : ⌊a / cs⌋ ≤ ⌊b / cs + 1⌋ := Int.floor_le_floor (by rw [← h2]; exact h1)
    calc ⌊a / cs⌋ ≤ ⌊b / cs + 1⌋ := h3
      _ = ⌊b / cs⌋ + 1 := Int.floor_add_one _

/-- C8 amended: the in/out thresholds are on the squared distance.  A
particle with `1e-6 < d² < pushRadius²` lies in the 3×3×3 cell neighborhood
the grid query visits and receives, that tick, a velocity increment that is
a positive multiple of the vector from the pointer to the particle (exactly
away from the pointer) with squared magnitude
`(pushStrength × (pushRadius − d) / pushRadius)²`; a particle with
`d² ≤ 1e-6` is skipped, and a particle with `d² ≥ pushRadius²` receives no
push force at all. -/
theorem claim8_push_amended (pushRadius pushStrength : ℚ) (pos : Vec3) (d : ℚ)
    (p : Particle) (hd : d * d = Vec3.distSq p.currentPosition pos) (hd0 : 0 ≤ d)
    (hpr : 0 < pushRadius) :
    (1/1000000 < Vec3.distSq p.currentPosition pos ∧
        Vec3.distSq p.currentPosition pos < pushRadius * pushRadius →
      pushVelocity pushRadius pushStrength pos d p
          = p.velocity + ((pushRadius - d) / pushRadius * pushStrength / d)
              • (p.currentPosition - pos)
        ∧ (0 < pushStrength → 0 < (pushRadius - d) / pushRadius * pushStrength / d)
        ∧ Vec3.normSq (pushVelocity pushRadius pushStrength pos d p - p.velocity)
            = (pushStrength * ((pushRadius - d) / pushRadius)) ^ 2
        ∧ ((cellCoord pushRadius pos).1 - 1 ≤ (cellCoord pushRadius p.currentPosition).1
            ∧ (cellCoord pushRadius p.currentPosition).1 ≤ (cellCoord pushRadius pos).1 + 1)
        ∧ ((cellCoord pushRadius pos).2.1 - 1 ≤ (cellCoord pushRadius p.currentPosition).2.1
            ∧ (cellCoord pushRadius p.currentPosition).2.1 ≤ (cellCoord pushRadius pos).2.1 + 1)
        ∧ ((cellCoord pushRadius pos).2.2 - 1 ≤ (cellCoord pushRadius p.currentPosition).2.2
            ∧ (cellCoord pushRadius p.currentPosition).2.2 ≤ (cellCoord pushRadius pos).2.2 + 1))
    ∧ (Vec3.distSq p.currentPosition pos ≤ 1/1000000 →
        pushVelocity pushRadius pushStrength pos d p = p.velocity)
    ∧ (pushRadius * pushRadius ≤ Vec3.distSq p.currentPosition pos →
        pushVelocity pushRadius pushStrength pos d p = p.velocity) := by
  refine ⟨?_, ?_, ?_⟩
  · rintro ⟨hlo, hhi⟩
    have hdpos : 0 < d := by
      rcases eq_or_lt_of_le hd0 with h | h
      · exfalso
        rw [← hd, ← h] at hlo
        norm_num at hlo
      · exact h
    have hdne : d ≠ 0 := ne_of_gt hdpos
    have hdlt : d < pushRadius := by
      nlinarith [hd, hhi]
    have heq : pushVelocity pushRadius pushStrength pos d p
        = p.velocity + ((pushRadius - d) / pushRadius * pushStrength / d)
            • (p.currentPosition - pos) := by
      unfold pushVelocity
      rw [if_pos ⟨hlo, hhi⟩]
    have hxsq : (p.currentPosition.x - pos.x) ^ 2 + (p.currentPosition.y - pos.y) ^ 2
        + (p.currentPosition.z - pos.z) ^ 2 = Vec3.distSq p.currentPosition pos := by
      simp only [Vec3.distSq, Vec3.normSq, Vec3.dot, Vec3.sub_x, Vec3.sub_y, Vec3.sub_z]
      ring
    have hax : -pushRadius < p.currentPosition.x - pos.x ∧
        p.currentPosition.x - pos.x < pushRadius := by
      constructor <;> nlinarith [hxsq, hhi, sq_nonneg (p.currentPosition.y - pos.y),
        sq_nonneg (p.currentPosition.z - pos.z)]
    have hay : -pushRadius < p.currentPosition.y - pos.y ∧
        p.currentPosition.y - pos.y < pushRadius := by
      constructor <;> nlinarith [hxsq, hhi, sq_nonneg (p.currentPosition.x - pos.x),
        sq_nonneg (p.currentPosition.z - pos.z)]
    have haz : -pushRadius < p.currentPosition.z - pos.z ∧
        p.currentPosition.z - pos.z < pushRadius := by
      constructor <;> nlinarith [hxsq, hhi, sq_nonneg (p.currentPosition.x - pos.x),
        sq_nonneg (p.currentPosition.y - pos.y)]
    refine ⟨heq, ?_, ?_, ?_, ?_, ?_⟩
    · intro hps
      have h1 : 0 < pushRadius - d := by linarith
      positivity
    · rw [heq]
      have : p.velocity + ((pushRadius - d) / pushRadius * pushStrength / d)
          • (p.currentPosition - pos) - p.velocity
          = ((pushRadius - d) / pushRadius * pushStrength / d)
              • (p.currentPosition - pos) := by
        ext <;> simp
      rw [this, Vec3.normSq_smul]
      have hds : Vec3.normSq (p.currentPosition - pos) = d * d := hd.symm
      rw [hds]
      field_simp
      ring
    · exact floor_cell_adjacent pushRadius p.currentPosition.x pos.x hpr hax.1 hax.2
    · exact floor_cell_adjacent pushRadius p.currentPosition.y pos.y hpr hay.1 hay.2
    · exact floor_cell_adjacent pushRadius p.currentPosition.z pos.z hpr haz.1 haz.2
  · intro h
    unfold pushVelocity
    rw [if_neg]
    rintro ⟨h1, -⟩
    exact absurd h (not_le.mpr h1)
  · intro h
    unfold pushVelocity
    rw [if_neg]
    rintro ⟨-, h2⟩
    exact absurd h (not_le.mpr h2)

/-- C8 witness at a concrete input: particle at distance 5 from the pointer
with `pushRadius = 60`. -/
theorem claim8_witness :
    ((5 : ℚ) * 5 = Vec3.distSq w8Particle.currentPosition ⟨0, 0, 0⟩ ∧ (0 : ℚ) ≤ 5
        ∧ (0 : ℚ) < 60
        ∧ (1/1000000 : ℚ) < Vec3.distSq w8Particle.currentPosition ⟨0, 0, 0⟩
        ∧ Vec3.distSq w8Particle.currentPosition ⟨0, 0, 0⟩ < 60 * 60)
    ∧ pushVelocity 60 (4/5) ⟨0, 0, 0⟩ 5 w8Particle
        = w8Particle.velocity + (((60 : ℚ) - 5) / 60 * (4/5) / 5)
            • (w8Particle.currentPosition - ⟨0, 0, 0⟩) := by
  have hdistSq : Vec3.distSq w8Particle.currentPosition ⟨0, 0, 0⟩ = 25 := by
    norm_num [w8Particle, dfltParticle, seedParticle, dfltPData, Vec3.distSq,
      Vec3.normSq, Vec3.dot, Vec3.zero]
  have hd : (5 : ℚ) * 5 = Vec3.distSq w8Particle.currentPosition ⟨0, 0, 0⟩ := by
    rw [hdistSq]; norm_num
  have hguard : (1/1000000 : ℚ) < Vec3.distSq w8Particle.currentPosition ⟨0, 0, 0⟩
      ∧ Vec3.distSq w8Particle.currentPosition ⟨0, 0, 0⟩ < 60 * 60 := by
    rw [hdistSq]; norm_num
  exact ⟨⟨hd, by norm_num, by norm_num, hguard.1, hguard.2⟩,
    ((claim8_push_amended 60 (4/5) ⟨0, 0, 0⟩ 5 w8Particle hd (by norm_num)
      (by norm_num)).1 hguard).1⟩

end Theorems

/-- Concrete mid-morph state (one particle, morph in flight since time 0,
no pointer interaction) used to refute C3. -/
def cex3State : SimState :=
  { particles := [dfltParticle]
    morph := { initMorphState with isMorphing := true
                                   startTime := 0
                                   direction := some Dir.toTarget }
    mouse := MouseState.none
    mouseStart := 0 }

/-- Concrete mid-morph state with an active pointer interaction used to
refute C4. -/
def cex4State : SimState :=
  { particles := [dfltParticle]
    morph := { initMorphState with isMorphing := true
                                   startTime := 0
                                   direction := some Dir.toTarget }
    mouse := MouseState.bursting
    mouseStart := 0 }

section MorphTheorems

/-- C3 counterexample: the morph-trigger effect has no `isMorphing` guard.
Triggering at time 100 while `cex3State` is already morphing (startTime 0,
direction toTarget) overwrites `startTime` with 100 and the direction with
the new one, so the in-flight morph is restarted and re-targeted, not left
unchanged as the claim states. -/
theorem claim3_counterexample :
    cex3State.morph.isMorphing = true
    ∧ cex3State.morph.startTime = 0
    ∧ cex3State.morph.direction = some Dir.toTarget
    ∧ (triggerMorph id (fun _ => Vec3.zero) (some [p0]) (some Dir.toSource) 100
        cex3State).morph.startTime = 100
    ∧ (triggerMorph id (fun _ => Vec3.zero) (some [p0]) (some Dir.toSource) 100
        cex3State).morph.direction = some Dir.toSource := by
  refine ⟨rfl, rfl, rfl, ?_, ?_⟩ <;>
    simp [triggerMorph, cex3State, p0, dfltParticle]

/-- C3 amended: a morph trigger received while the controller is already
Morphing restarts and re-targets the in-flight morph — `isMorphing` is set,
`startTime` becomes the trigger time and `direction` the newly requested
direction (and every particle's `burstPosition` is redrawn); only a trigger
with no target data loaded (or a null direction, or empty particle/target
arrays) is silently dropped. -/
theorem claim3_retarget_amended (vib : Color → Color) (offsets : ℕ → Vec3)
    (tdata : List PData) (dir : Dir) (now : ℚ) (st : SimState)
    (hp : st.particles.length ≠ 0) (ht : tdata.length ≠ 0) :
    ((triggerMorph vib offsets (some tdata) (some dir) now st).morph.isMorphing = true
      ∧ (triggerMorph vib offsets (some tdata) (some dir) now st).morph.startTime = now
      ∧ (triggerMorph vib offsets (some tdata) (some dir) now st).morph.direction
          = some dir)
    ∧ (∀ (dirOpt : Option Dir) (now2 : ℚ),
        triggerMorph vib offsets none dirOpt now2 st = st)
    ∧ (∀ (td : Option (List PData)) (now2 : ℚ),
        triggerMorph vib offsets td none now2 st = st)
    ∧ (∀ (now2 : ℚ), st.particles.length = 0 →
        triggerMorph vib offsets (some tdata) (some dir) now2 st = st) := by
  have hguard : ¬(st.particles.length = 0 ∨ tdata.length = 0) := by
    rintro (h | h)
    · exact hp h
    · exact ht h
  refine ⟨?_, ?_, ?_, ?_⟩
  · simp only [triggerMorph]
    rw [if_neg hguard]
    exact ⟨rfl, rfl, rfl⟩
  · intro dirOpt now2
    cases dirOpt <;> rfl
  · intro td now2
    cases td <;> rfl
  · intro now2 h0
    simp only [triggerMorph]
    rw [if_pos (Or.inl h0)]

/-- C3 witness at a concrete input. -/
theorem claim3_witness :
    (cex3State.particles.length ≠ 0 ∧ ([p0] : List PData).length ≠ 0)
    ∧ (triggerMorph id (fun _ => Vec3.zero) (some [p0]) (some Dir.toSource) 250
        cex3State).morph.startTime = 250 := by
  refine ⟨⟨by simp [cex3State], by simp⟩, ?_⟩
  exact (claim3_retarget_amended id (fun _ => Vec3.zero) [p0] Dir.toSource 250
    cex3State (by simp [cex3State]) (by simp)).1.2.1

/-- C4 counterexample: on a tick at time 5000 with the pointer interaction
active (`bursting`) and a morph in flight since time 0 with duration 4000,
the elapsed time has reached the duration, yet the tick emits no completion
callback and leaves `isMorphing` true — the pointer-interaction early return
skips the completion bookkeeping, contrary to the claim. -/
theorem claim4_counterexample :
    cex4State.mouse ≠ MouseState.none
    ∧ cex4State.morph.isMorphing = true
    ∧ cex4State.morph.duration ≤ 5000 - cex4State.morph.startTime
    ∧ (animateTick (fun _ _ _ p => p) id Vec3.zero 5000 cex4State).2 = none
    ∧ (animateTick (fun _ _ _ p => p) id Vec3.zero 5000 cex4State).1.morph.isMorphing
        = true := by
  refine ⟨by simp [cex4State], rfl, ?_, ?_, ?_⟩
  · show (4000 : ℚ) ≤ 5000 - 0
    norm_num
  · simp [animateTick, cex4State]
  · simp [animateTick, cex4State]

/-- C4 amended: an active pointer interaction preempts the entire morph
branch of the tick, completion bookkeeping included — on such a tick the
morph state is unchanged and no callback is emitted; completion (snap,
transition to Idle, callback with the stored direction) happens on the first
tick with no pointer interaction whose elapsed time has reached the
duration. -/
theorem claim4_deferred_completion (phase : ℚ → ℕ → ℕ → Particle → Particle)
    (forces : List Particle → List Particle) (pointer : Vec3) (now : ℚ)
    (st : SimState) (hmouse : st.mouse ≠ MouseState.none) :
    ((animateTick phase forces pointer now st).1.morph = st.morph
      ∧ (animateTick phase forces pointer now st).2 = none)
    ∧ (∀ (st2 : SimState) (now2 : ℚ), st2.mouse = MouseState.none →
        st2.morph.isMorphing = true →
        st2.morph.duration ≤ now2 - st2.morph.startTime →
        (animateTick phase forces pointer now2 st2).2 = st2.morph.direction
          ∧ (animateTick phase forces pointer now2 st2).1.morph.isMorphing
              = false) := by
  constructor
  · unfold animateTick
    rw [if_pos hmouse]
    exact ⟨rfl, rfl⟩
  · intro st2 now2 hm2 hmorph hdone
    unfold animateTick
    rw [if_neg (by rw [hm2]; simp), if_pos hmorph, if_pos hdone]
    exact ⟨rfl, rfl⟩

/-- C4 witness at a concrete input. -/
theorem claim4_witness :
    cex4State.mouse ≠ MouseState.none
    ∧ (animateTick (fun _ _ _ p => p) id Vec3.zero 300 cex4State).1.morph
        = cex4State.morph := by
  refine ⟨by simp [cex4State], ?_⟩
  exact (claim4_deferred_completion (fun _ _ _ p => p) id Vec3.zero 300 cex4State
    (by simp [cex4State])).1.1

end MorphTheorems

/-- Projection of a particle onto the fields the completion snap writes:
attractor position and current color. -/
def attrColOf (p : Particle) : Vec3 × Color := (p.attractorPosition, p.currentColor)

/-- Projection of a particle onto its home (role) fields: source position,
target position, source color, target color. -/
def homesOf (p : Particle) : Vec3 × Vec3 × Color × Color :=
  (p.sourcePosition, p.targetPosition, p.sourceColor, p.targetColor)

/-- Arrival attractor/color as the completion snap computes them from the
home fields and a direction. -/
def arrivalOfHomes (dir : Option Dir) (h : Vec3 × Vec3 × Color × Color) :
    Vec3 × Color :=
  (if dir = some Dir.toTarget then h.2.1 else h.1,
   if dir = some Dir.toTarget then h.2.2.2 else h.2.2.1)

section RunTheorems

/-- Helper: the completion snap writes exactly the arrival values determined
by the home fields. -/
theorem map_attrColOf_complete (dir : Option Dir) (ps : List Particle) :
    (ps.map (completeParticle dir)).map attrColOf
      = (ps.map homesOf).map (arrivalOfHomes dir) := by
  rw [List.map_map, List.map_map]
  rfl

/-- Helper: an indexed map whose body preserves a projection preserves the
projected list. -/
theorem map_idxMapFrom_preserve (h : β → γ) (g : ℕ → β → β)
    (hg : ∀ i p, h (g i p) = h p) (l : List β) :
    ∀ k, (idxMapFrom g k l).map h = l.map h := by
  induction l with
  | nil => intro k; rfl
  | cons a l ih =>
    intro k
    simp only [idxMapFrom_cons, List.map_cons, hg, ih]

/-- Helper: tick behavior when no pointer interaction is active and the
in-flight morph has not yet reached its duration: the phase branch touches
only particle fields, not the controller. -/
theorem animateTick_inflight (phase : ℚ → ℕ → ℕ → Particle → Particle)
    (forces : List Particle → List Particle) (pointer : Vec3) (now : ℚ)
    (st : SimState) (hmouse : st.mouse = MouseState.none)
    (hm : st.morph.isMorphing = true)
    (hlt : now - st.morph.startTime < st.morph.duration)
    (hphaseH : ∀ t i n p, homesOf (phase t i n p) = homesOf p)
    (hforcesH : ∀ ps, (forces ps).map homesOf = ps.map homesOf) :
    (animateTick phase forces pointer now st).1.morph = st.morph
    ∧ (animateTick phase forces pointer now st).1.mouse = st.mouse
    ∧ (animateTick phase forces pointer now st).1.particles.map homesOf
        = st.particles.map homesOf
    ∧ (animateTick phase forces pointer now st).2 = none := by
  unfold animateTick
  rw [if_neg (by rw [hmouse]; simp), if_pos hm, if_neg (not_le.mpr hlt)]
  refine ⟨rfl, rfl, ?_, rfl⟩
  show (forces (idxMap _ st.particles)).map homesOf = st.particles.map homesOf
  rw [hforcesH]
  exact map_idxMapFrom_preserve homesOf _
    (fun i p => hphaseH (now - st.morph.startTime) i st.particles.length p)
    st.particles 0

/-- Helper: tick behavior when no pointer interaction is active and no morph
is in flight. -/
theorem animateTick_idle (phase : ℚ → ℕ → ℕ → Particle → Particle)
    (forces : List Particle → List Particle) (pointer : Vec3) (now : ℚ)
    (st : SimState) (hmouse : st.mouse = MouseState.none)
    (hm : st.morph.isMorphing = false) :
    (animateTick phase forces pointer now st).1.morph = st.morph
    ∧ (animateTick phase forces pointer now st).1.mouse = st.mouse
    ∧ (animateTick phase forces pointer now st).1.particles = forces st.particles
    ∧ (animateTick phase forces pointer now st).2 = none := by
  unfold animateTick
  rw [if_neg (by rw [hmouse]; simp), if_neg (by rw [hm]; simp)]
  exact ⟨rfl, rfl, rfl, rfl⟩

/-- Helper: tick behavior on the completion tick (no pointer interaction,
morph in flight, elapsed time at or past the duration). -/
theorem animateTick_complete (phase : ℚ → ℕ → ℕ → Particle → Particle)
    (forces : List Particle → List Particle) (pointer : Vec3) (now : ℚ)
    (st : SimState) (hmouse : st.mouse = MouseState.none)
    (hm : st.morph.isMorphing = true)
    (hge : st.morph.duration ≤ now - st.morph.startTime) :
    (animateTick phase forces pointer now st).1.morph.isMorphing = false
    ∧ (animateTick phase forces pointer now st).1.mouse = st.mouse
    ∧ (animateTick phase forces pointer now st).1.particles
        = forces (st.particles.map (completeParticle st.morph.direction))
    ∧ (animateTick phase forces pointer now st).2 = st.morph.direction := by
  unfold animateTick
  rw [if_neg (by rw [hmouse]; simp), if_pos hm, if_pos hge]
  exact ⟨rfl, rfl, rfl, rfl⟩

/-- Helper: a run of in-flight ticks (all strictly before the duration)
leaves the controller, the mouse state and the home projections unchanged
and emits no callback. -/
theorem runTicks_inflight (phase : ℚ → ℕ → ℕ → Particle → Particle)
    (forces : List Particle → List Particle) (pointer : Vec3)
    (hphaseH : ∀ t i n p, homesOf (phase t i n p) = homesOf p)
    (hforcesH : ∀ ps, (forces ps).map homesOf = ps.map homesOf)
    (ts : List ℚ) :
    ∀ st : SimState, st.mouse = MouseState.none → st.morph.isMorphing = true →
      (∀ t ∈ ts, t - st.morph.startTime < st.morph.duration) →
      (runTicks phase forces pointer ts st).1.morph = st.morph
      ∧ (runTicks phase forces pointer ts st).1.mouse = st.mouse
      ∧ (runTicks phase forces pointer ts st).1.particles.map homesOf
          = st.particles.map homesOf
      ∧ (runTicks phase forces pointer ts st).2 = [] := by
  induction ts with
  | nil => intro st h1 h2 h3; exact ⟨rfl, rfl, rfl, rfl⟩
  | cons t ts ih =>
    intro st h1 h2 h3
    have htick := animateTick_inflight phase forces pointer t st h1 h2
      (h3 t (List.mem_cons_self t ts)) hphaseH hforcesH
    have hrest := ih (animateTick phase forces pointer t st).1
      (htick.2.1.trans h1) (by rw [htick.1]; exact h2)
      (by intro u hu; rw [htick.1]; exact h3 u (List.mem_cons_of_mem t hu))
    simp only [runTicks]
    refine ⟨?_, ?_, ?_, ?_⟩
    · rw [hrest.1, htick.1]
    · rw [hrest.2.1, htick.2.1]
    · rw [hrest.2.2.1, htick.2.2.1]
    · rw [htick.2.2.2, hrest.2.2.2]
      rfl

/-- Helper: a run of ticks with the controller Idle and no pointer
interaction leaves the controller unchanged, preserves the
attractor/color projections (given that the force passes do) and emits no
callback — in particular no second completion callback can fire. -/
theorem runTicks_idle (phase : ℚ → ℕ → ℕ → Particle → Particle)
    (forces : List Particle → List Particle) (pointer : Vec3)
    (hforcesAC : ∀ ps, (forces ps).map attrColOf = ps.map attrColOf)
    (ts : List ℚ) :
    ∀ st : SimState, st.mouse = MouseState.none → st.morph.isMorphing = false →
      (runTicks phase forces pointer ts st).1.morph = st.morph
      ∧ (runTicks phase forces pointer ts st).1.particles.map attrColOf
          = st.particles.map attrColOf
      ∧ (runTicks phase forces pointer ts st).2 = [] := by
  induction ts with
  | nil => intro st h1 h2; exact ⟨rfl, rfl, rfl⟩
  | cons t ts ih =>
    intro st h1 h2
    have htick := animateTick_idle phase forces pointer t st h1 h2
    have hrest := ih (animateTick phase forces pointer t st).1
      (htick.2.1.trans h1) (by rw [htick.1]; exact h2)
    simp only [runTicks]
    refine ⟨?_, ?_, ?_⟩
    · rw [hrest.1, htick.1]
    · rw [hrest.2.1, htick.2.2.1, hforcesAC]
    · rw [htick.2.2.2, hrest.2.2]
      rfl

/-- Helper: a run splits along list concatenation. -/
theorem runTicks_append (phase : ℚ → ℕ → ℕ → Particle → Particle)
    (forces : List Particle → List Particle) (pointer : Vec3)
    (l1 l2 : List ℚ) :
    ∀ st : SimState, runTicks phase forces pointer (l1 ++ l2) st
      = ((runTicks phase forces pointer l2
            (runTicks phase forces pointer l1 st).1).1,
         (runTicks phase forces pointer l1 st).2
           ++ (runTicks phase forces pointer l2
                (runTicks phase forces pointer l1 st).1).2) := by
  induction l1 with
  | nil => intro st; simp [runTicks]
  | cons t ts ih =>
    intro st
    simp only [List.cons_append, runTicks, List.append_eq]
    rw [ih]
    simp [List.append_assoc]

/-- C1: for a triggered morph (`isMorphing`, direction stored) followed by a
run of ticks with no pointer interaction — some ticks strictly before the
duration, then a first tick `tc` whose elapsed time reaches the duration,
then arbitrary further ticks — the completion callback fires exactly once
over the whole run, with exactly the requested direction; on the completion
tick every particle's attractor position and current color are set by exact
copy to the arrival role's position and color (as recorded in the home
fields at trigger time), these snapped values survive the remaining ticks'
force passes, and the controller ends Idle.  `phase`/`forces` abstract the
in-progress attractor math and the force passes, which touch neither the
controller nor (as hypothesized) the home and attractor/color projections. -/
theorem claim1_completion_exactly_once
    (phase : ℚ → ℕ → ℕ → Particle → Particle)
    (forces : List Particle → List Particle) (pointer : Vec3)
    (st : SimState) (dir : Dir) (ts1 : List ℚ) (tc : ℚ) (ts2 : List ℚ)
    (hforcesAC : ∀ ps, (forces ps).map attrColOf = ps.map attrColOf)
    (hforcesH : ∀ ps, (forces ps).map homesOf = ps.map homesOf)
    (hphaseH : ∀ t i n p, homesOf (phase t i n p) = homesOf p)
    (hm : st.morph.isMorphing = true)
    (hdir : st.morph.direction = some dir)
    (hmouse : st.mouse = MouseState.none)
    (h1 : ∀ t ∈ ts1, t - st.morph.startTime < st.morph.duration)
    (h2 : st.morph.duration ≤ tc - st.morph.startTime) :
    (runTicks phase forces pointer (ts1 ++ tc :: ts2) st).2 = [dir]
    ∧ (runTicks phase forces pointer (ts1 ++ tc :: ts2) st).1.particles.map attrColOf
        = (st.particles.map homesOf).map (arrivalOfHomes (some dir))
    ∧ (runTicks phase forces pointer (ts1 ++ tc :: ts2) st).1.morph.isMorphing
        = false := by
  have hrun1 := runTicks_inflight phase forces pointer hphaseH hforcesH ts1 st
    hmouse hm h1
  have hc := animateTick_complete phase forces pointer tc
    (runTicks phase forces pointer ts1 st).1
    (hrun1.2.1.trans hmouse) (by rw [hrun1.1]; exact hm)
    (by rw [hrun1.1]; exact h2)
  have hac2 : (animateTick phase forces pointer tc
        (runTicks phase forces pointer ts1 st).1).1.particles.map attrColOf
      = (st.particles.map homesOf).map (arrivalOfHomes (some dir)) := by
    rw [hc.2.2.1, hforcesAC, map_attrColOf_complete, hrun1.2.2.1, hrun1.1, hdir]
  have hrun3 := runTicks_idle phase forces pointer hforcesAC ts2
    (animateTick phase forces pointer tc (runTicks phase forces pointer ts1 st).1).1
    (hc.2.1.trans (hrun1.2.1.trans hmouse)) hc.1
  have hsplit := runTicks_append phase forces pointer ts1 (tc :: ts2) st
  rw [hsplit]
  simp only [runTicks]
  refine ⟨?_, ?_, ?_⟩
  · rw [hrun1.2.2.2, hc.2.2.2, hrun1.1, hdir, hrun3.2.2]
    rfl
  · rw [hrun3.2.1, hac2]
  · rw [hrun3.1, hc.1]

/-- Concrete triggered state (one particle, morph in flight since time 0,
no pointer interaction) used by the C1 witness. -/
def w1State : SimState :=
  { particles := [dfltParticle]
    morph := { initMorphState with isMorphing := true
                                   startTime := 0
                                   direction := some Dir.toTarget }
    mouse := MouseState.none
    mouseStart := 0 }

/-- C1 witness: a concrete run with one in-flight tick at t=100, the
completion tick at t=4000 and one later tick at t=4100 fires the callback
exactly once, with the requested direction. -/
theorem claim1_witness :
    (w1State.morph.isMorphing = true
      ∧ w1State.morph.direction = some Dir.toTarget
      ∧ w1State.mouse = MouseState.none
      ∧ (∀ t ∈ ([100] : List ℚ),
          t - w1State.morph.startTime < w1State.morph.duration)
      ∧ w1State.morph.duration ≤ 4000 - w1State.morph.startTime)
    ∧ (runTicks (fun _ _ _ p => p) id Vec3.zero ([100] ++ 4000 :: [4100]) w1State).2
        = [Dir.toTarget] := by
  refine ⟨⟨rfl, rfl, rfl, ?_, ?_⟩, ?_⟩
  · intro t ht
    rw [List.mem_singleton] at ht
    subst ht
    show (100 : ℚ) - 0 < 4000
    norm_num
  · show (4000 : ℚ) ≤ 4000 - 0
    norm_num
  · exact (claim1_completion_exactly_once (fun _ _ _ p => p) id Vec3.zero w1State
      Dir.toTarget [100] 4000 [4100] (fun ps => rfl) (fun ps => rfl)
      (fun t i n p => rfl) rfl rfl rfl
      (by
        intro t ht
        rw [List.mem_singleton] at ht
        subst ht
        show (100 : ℚ) - 0 < 4000
        norm_num)
      (by
        show (4000 : ℚ) ≤ 4000 - 0
        norm_num)).1

end RunTheorems

/-- Discrete energy of the scalar free integrator at step `n`, built from the
position errors at steps `n` and `n+1`.  For the recurrence
`e(n+2) = A·e(n+1) − damping·e(n)` with `A = 1 + damping − damping·s` this
quantity contracts by exactly `damping` each step. -/
def energyAt (s dm a : ℚ) (xv : ℚ × ℚ) (n : ℕ) : ℚ :=
  ((iterScalar s dm a xv (n + 1)).1 - a) ^ 2
    - (1 + dm - dm * s) * ((iterScalar s dm a xv (n + 1)).1 - a)
        * ((iterScalar s dm a xv n).1 - a)
    + dm * ((iterScalar s dm a xv n).1 - a) ^ 2

section ScalarTheorems

/-- Helper: the position error of the scalar free integrator satisfies the
linear recurrence `e(n+2) = (1 + dm − dm·s)·e(n+1) − dm·e(n)`. -/
theorem iterScalar_rec (s dm a : ℚ) (xv : ℚ × ℚ) (n : ℕ) :
    (iterScalar s dm a xv (n + 2)).1 - a
      = (1 + dm - dm * s) * ((iterScalar s dm a xv (n + 1)).1 - a)
        - dm * ((iterScalar s dm a xv n).1 - a) := by
  show (stepScalar s dm a (stepScalar s dm a (iterScalar s dm a xv n))).1 - a
      = (1 + dm - dm * s) * ((stepScalar s dm a (iterScalar s dm a xv n)).1 - a)
        - dm * ((iterScalar s dm a xv n).1 - a)
  simp only [stepScalar]
  ring

/-- Helper: the velocity at step `n+1` is the difference of consecutive
position errors. -/
theorem iterScalar_vel (s dm a : ℚ) (xv : ℚ × ℚ) (n : ℕ) :
    (iterScalar s dm a xv (n + 1)).2
      = ((iterScalar s dm a xv (n + 1)).1 - a)
        - ((iterScalar s dm a xv n).1 - a) := by
  show (stepScalar s dm a (iterScalar s dm a xv n)).2
      = ((stepScalar s dm a (iterScalar s dm a xv n)).1 - a)
        - ((iterScalar s dm a xv n).1 - a)
  simp only [stepScalar]
  ring

/-- Helper: the discrete energy contracts by exactly `damping` per step. -/
theorem energyAt_succ (s dm a : ℚ) (xv : ℚ × ℚ) (n : ℕ) :
    energyAt s dm a xv (n + 1) = dm * energyAt s dm a xv n := by
  unfold energyAt
  rw [iterScalar_rec]
  ring

/-- Helper: closed form of the discrete energy. -/
theorem energyAt_eq (s dm a : ℚ) (xv : ℚ × ℚ) :
    ∀ n, energyAt s dm a xv n = dm ^ n * energyAt s dm a xv 0 := by
  intro n
  induction n with
  | zero => simp
  | succ m ih =>
    rw [energyAt_succ, ih]
    ring

/-- Helper: in the underdamped regime the energy dominates the squared
position error. -/
theorem energy_lower (s dm a : ℚ) (xv : ℚ × ℚ) (n : ℕ) :
    (dm - (1 + dm - dm * s) ^ 2 / 4) * ((iterScalar s dm a xv n).1 - a) ^ 2
      ≤ energyAt s dm a xv n := by
  unfold energyAt
  nlinarith [sq_nonneg ((iterScalar s dm a xv (n + 1)).1 - a
    - (1 + dm - dm * s) / 2 * ((iterScalar s dm a xv n).1 - a))]

/-- Helper: the initial energy is nonnegative in the underdamped regime. -/
theorem energyAt_zero_nonneg (s dm a : ℚ) (xv : ℚ × ℚ)
    (hc : 0 < dm - (1 + dm - dm * s) ^ 2 / 4) :
    0 ≤ energyAt s dm a xv 0 := by
  have h := energy_lower s dm a xv 0
  nlinarith [sq_nonneg ((iterScalar s dm a xv 0).1 - a)]

/-- Helper: geometric decay of the squared scalar position error. -/
theorem scalar_sq_bound (s dm a : ℚ) (xv : ℚ × ℚ)
    (hc : 0 < dm - (1 + dm - dm * s) ^ 2 / 4) (n : ℕ) :
    ((iterScalar s dm a xv n).1 - a) ^ 2
      ≤ dm ^ n * (energyAt s dm a xv 0 / (dm - (1 + dm - dm * s) ^ 2 / 4)) := by
  have h1 := energy_lower s dm a xv n
  rw [energyAt_eq] at h1
  rw [← mul_div_assoc]
  rw [le_div_iff hc]
  nlinarith

/-- Helper: geometric decay of the squared scalar velocity, via
`v(n+1) = e(n+1) − e(n)` and `(x − y)² ≤ 2x² + 2y²`. -/
theorem scalar_vel_sq_bound (s dm a : ℚ) (xv : ℚ × ℚ)
    (hc : 0 < dm - (1 + dm - dm * s) ^ 2 / 4) (m : ℕ) :
    (iterScalar s dm a xv (m + 1)).2 ^ 2
      ≤ 2 * (dm ^ (m + 1)
          * (energyAt s dm a xv 0 / (dm - (1 + dm - dm * s) ^ 2 / 4)))
        + 2 * (dm ^ m
          * (energyAt s dm a xv 0 / (dm - (1 + dm - dm * s) ^ 2 / 4))) := by
  have b1 := scalar_sq_bound s dm a xv hc (m + 1)
  have b0 := scalar_sq_bound s dm a xv hc m
  rw [iterScalar_vel]
  nlinarith [sq_nonneg (((iterScalar s dm a xv (m + 1)).1 - a)
    + ((iterScalar s dm a xv m).1 - a))]

/-- Helper: algebraic identity splitting a geometric factor over one step,
valid for any nonzero ratio. -/
theorem geom_vel_key (K D : ℚ) (hD : D ≠ 0) (m : ℕ) :
    2 * K * (1 + 1/D) * D ^ (m + 1) = 2 * (D ^ (m + 1) * K) + 2 * (D ^ m * K) := by
  rw [pow_succ]
  field_simp
  ring

end ScalarTheorems

section FreeTheorems

/-- Helper: the free integrator never changes the attractor. -/
theorem iterateFree_attractor (s dm : ℚ) (p : Particle) :
    ∀ n, (iterateFree s dm p n).attractorPosition = p.attractorPosition := by
  intro n
  induction n with
  | zero => rfl
  | succ m ih =>
    show (integrateParticle s dm (iterateFree s dm p m)).attractorPosition = _
    rw [show ∀ q, (integrateParticle s dm q).attractorPosition
          = q.attractorPosition from fun q => rfl]
    exact ih

/-- Helper: a single integration step projects componentwise to the scalar
step. -/
theorem integrateParticle_x (s dm : ℚ) (q : Particle) :
    ((integrateParticle s dm q).currentPosition.x, (integrateParticle s dm q).velocity.x)
      = stepScalar s dm q.attractorPosition.x (q.currentPosition.x, q.velocity.x) := by
  simp only [integrateParticle, stepScalar, Vec3.add_x, Vec3.smul_x, Vec3.sub_x]
  rw [Prod.mk.injEq]
  constructor <;> ring

/-- Helper: a single integration step projects componentwise to the scalar
step. -/
theorem integrateParticle_y (s dm : ℚ) (q : Particle) :
    ((integrateParticle s dm q).currentPosition.y, (integrateParticle s dm q).velocity.y)
      = stepScalar s dm q.attractorPosition.y (q.currentPosition.y, q.velocity.y) := by
  simp only [integrateParticle, stepScalar, Vec3.add_y, Vec3.smul_y, Vec3.sub_y]
  rw [Prod.mk.injEq]
  constructor <;> ring

/-- Helper: a single integration step projects componentwise to the scalar
step. -/
theorem integrateParticle_z (s dm : ℚ) (q : Particle) :
    ((integrateParticle s dm q).currentPosition.z, (integrateParticle s dm q).velocity.z)
      = stepScalar s dm q.attractorPosition.z (q.currentPosition.z, q.velocity.z) := by
  simp only [integrateParticle, stepScalar, Vec3.add_z, Vec3.smul_z, Vec3.sub_z]
  rw [Prod.mk.injEq]
  constructor <;> ring

/-- Helper: the iterated free integrator projects componentwise to the
iterated scalar integrator (x component). -/
theorem iterateFree_x (s dm : ℚ) (p : Particle) :
    ∀ n, ((iterateFree s dm p n).currentPosition.x, (iterateFree s dm p n).velocity.x)
      = iterScalar s dm p.attractorPosition.x (p.currentPosition.x, p.velocity.x) n := by
  intro n
  induction n with
  | zero => rfl
  | succ m ih =>
    show ((integrateParticle s dm (iterateFree s dm p m)).currentPosition.x,
          (integrateParticle s dm (iterateFree s dm p m)).velocity.x)
        = stepScalar s dm p.attractorPosition.x
            (iterScalar s dm p.attractorPosition.x (p.currentPosition.x, p.velocity.x) m)
    rw [integrateParticle_x, iterateFree_attractor s dm p m, ← ih]

/-- Helper: y component. -/
theorem iterateFree_y (s dm : ℚ) (p : Particle) :
    ∀ n, ((iterateFree s dm p n).currentPosition.y, (iterateFree s dm p n).velocity.y)
      = iterScalar s dm p.attractorPosition.y (p.currentPosition.y, p.velocity.y) n := by
  intro n
  induction n with
  | zero => rfl
  | succ m ih =>
    show ((integrateParticle s dm (iterateFree s dm p m)).currentPosition.y,
          (integrateParticle s dm (iterateFree s dm p m)).velocity.y)
        = stepScalar s dm p.attractorPosition.y
            (iterScalar s dm p.attractorPosition.y (p.currentPosition.y, p.velocity.y) m)
    rw [integrateParticle_y, iterateFree_attractor s dm p m, ← ih]

/-- Helper: z component. -/
theorem iterateFree_z (s dm : ℚ) (p : Particle) :
    ∀ n, ((iterateFree s dm p n).currentPosition.z, (iterateFree s dm p n).velocity.z)
      = iterScalar s dm p.attractorPosition.z (p.currentPosition.z, p.velocity.z) n := by
  intro n
  induction n with
  | zero => rfl
  | succ m ih =>
    show ((integrateParticle s dm (iterateFree s dm p m)).currentPosition.z,
          (integrateParticle s dm (iterateFree s dm p m)).velocity.z)
        = stepScalar s dm p.attractorPosition.z
            (iterScalar s dm p.attractorPosition.z (p.currentPosition.z, p.velocity.z) m)
    rw [integrateParticle_z, iterateFree_attractor s dm p m, ← ih]

end FreeTheorems

/-- Particle at rest at distance 1 from its attractor (attractor at the
origin), used to refute C9 as stated. -/
def cex9Particle : Particle := { dfltParticle with currentPosition := ⟨1, 0, 0⟩ }

/-- Particle at rest away from its attractor used by the C9 witness. -/
def w9Particle : Particle := { dfltParticle with currentPosition := ⟨2, 1, -1⟩ }

section Claim9

/-- Helper: a nonnegative sequence dominated by a geometric sequence with
ratio below one eventually stays below any positive threshold. -/
theorem geom_to_eps (dm : ℚ) (hdm0 : 0 < dm) (hdm : dm < 1) (C : ℚ) (hC : 0 ≤ C)
    (f : ℕ → ℚ) (hb : ∀ n, f n ≤ C * dm ^ n) :
    ∀ ε : ℚ, 0 < ε → ∃ N, ∀ n, N ≤ n → f n ≤ ε * ε := by
  intro ε hε
  rcases eq_or_lt_of_le hC with hC0 | hC0
  · refine ⟨0, fun n hn => ?_⟩
    have h1 := hb n
    rw [← hC0] at h1
    nlinarith [mul_pos hε hε]
  · obtain ⟨N, hN⟩ := exists_pow_lt_of_lt_one (div_pos (mul_pos hε hε) hC0) hdm
    refine ⟨N, fun n hn => ?_⟩
    have h1 : dm ^ n ≤ dm ^ N := pow_le_pow_of_le_one hdm0.le hdm.le hn
    have h2 : dm ^ N * C < ε * ε := (lt_div_iff hC0).mp hN
    have h3 : C * dm ^ n ≤ C * dm ^ N := mul_le_mul_of_nonneg_left h1 hC0.le
    have h4 := hb n
    nlinarith

/-- Helper: with zero return strength a particle at rest is a fixed point of
the integrator. -/
theorem integrateParticle_fixed (dm : ℚ) (q : Particle)
    (hv : q.velocity = Vec3.zero) : integrateParticle 0 dm q = q := by
  unfold integrateParticle
  ext <;> simp [hv]

/-- C9 counterexample: the claim quantifies only over `damping < 1` and "no
external forcing"; with `returnStrength = 0` (an allowed configuration — the
control's minimum) a particle released at rest one unit from its attractor
never moves, so it never comes within ε = 1/2 of the attractor.
Convergence needs a positive return strength. -/
theorem claim9_counterexample :
    ((23/25 : ℚ) < 1 ∧ cex9Particle.velocity = Vec3.zero)
    ∧ ¬ (∃ N : ℕ, ∀ n, N ≤ n →
        Vec3.distSq (iterateFree 0 (23/25) cex9Particle n).currentPosition
          cex9Particle.attractorPosition ≤ (1/2 : ℚ) * (1/2)) := by
  refine ⟨⟨by norm_num, rfl⟩, ?_⟩
  have hfix : ∀ n, iterateFree 0 (23/25) cex9Particle n = cex9Particle := by
    intro n
    induction n with
    | zero => rfl
    | succ m ih =>
      show integrateParticle 0 (23/25) (iterateFree 0 (23/25) cex9Particle m)
          = cex9Particle
      rw [ih]
      exact integrateParticle_fixed (23/25) cex9Particle rfl
  rintro ⟨N, h⟩
  have hN := h N le_rfl
  rw [hfix N] at hN
  have hone : Vec3.distSq cex9Particle.currentPosition cex9Particle.attractorPosition
      = 1 := by
    norm_num [cex9Particle, dfltParticle, seedParticle, dfltPData, Vec3.distSq,
      Vec3.normSq, Vec3.dot, Vec3.zero]
  rw [hone] at hN
  norm_num at hN

/-- C9 amended: with `damping < 1` and parameters in the underdamped regime
`(1 + damping − damping·returnStrength)² < 4·damping` (which forces
`returnStrength > 0` and holds for the defaults damping = 0.92,
returnStrength = 0.02), a particle released at rest with a fixed attractor
converges under the free per-tick update: its squared distance to the
attractor is bounded by a geometric sequence with ratio `damping`, for every
ε > 0 there is a tick count after which the squared distance stays within
ε², and the squared velocity magnitude also decays geometrically. -/
theorem claim9_convergence_amended (s dm : ℚ) (p : Particle)
    (hrest : p.velocity = Vec3.zero) (hdm : dm < 1)
    (hreg : (1 + dm - dm * s) ^ 2 < 4 * dm) :
    (∃ C : ℚ, 0 ≤ C ∧ ∀ n, Vec3.distSq (iterateFree s dm p n).currentPosition
        p.attractorPosition ≤ C * dm ^ n)
    ∧ (∀ ε : ℚ, 0 < ε → ∃ N, ∀ n, N ≤ n →
        Vec3.distSq (iterateFree s dm p n).currentPosition p.attractorPosition
          ≤ ε * ε)
    ∧ (∃ C : ℚ, 0 ≤ C ∧ ∀ n, 1 ≤ n →
        Vec3.normSq (iterateFree s dm p n).velocity ≤ C * dm ^ n) := by
  have hdm0 : 0 < dm := by nlinarith [sq_nonneg (1 + dm - dm * s)]
  have hc : 0 < dm - (1 + dm - dm * s) ^ 2 / 4 := by nlinarith
  have hEx0 := energyAt_zero_nonneg s dm p.attractorPosition.x
    (p.currentPosition.x, p.velocity.x) hc
  have hEy0 := energyAt_zero_nonneg s dm p.attractorPosition.y
    (p.currentPosition.y, p.velocity.y) hc
  have hEz0 := energyAt_zero_nonneg s dm p.attractorPosition.z
    (p.currentPosition.z, p.velocity.z) hc
  have hKsum : 0 ≤ (energyAt s dm p.attractorPosition.x
        (p.currentPosition.x, p.velocity.x) 0
      + energyAt s dm p.attractorPosition.y (p.currentPosition.y, p.velocity.y) 0
      + energyAt s dm p.attractorPosition.z (p.currentPosition.z, p.velocity.z) 0)
      / (dm - (1 + dm - dm * s) ^ 2 / 4) :=
    div_nonneg (by linarith) hc.le
  have hdist : ∀ n,
      Vec3.distSq (iterateFree s dm p n).currentPosition p.attractorPosition
        = ((iterScalar s dm p.attractorPosition.x
              (p.currentPosition.x, p.velocity.x) n).1 - p.attractorPosition.x) ^ 2
          + ((iterScalar s dm p.attractorPosition.y
              (p.currentPosition.y, p.velocity.y) n).1 - p.attractorPosition.y) ^ 2
          + ((iterScalar s dm p.attractorPosition.z
              (p.currentPosition.z, p.velocity.z) n).1 - p.attractorPosition.z) ^ 2 := by
    intro n
    have hx : (iterateFree s dm p n).currentPosition.x
        = (iterScalar s dm p.attractorPosition.x
            (p.currentPosition.x, p.velocity.x) n).1 :=
      congrArg Prod.fst (iterateFree_x s dm p n)
    have hy : (iterateFree s dm p n).currentPosition.y
        = (iterScalar s dm p.attractorPosition.y
            (p.currentPosition.y, p.velocity.y) n).1 :=
      congrArg Prod.fst (iterateFree_y s dm p n)
    have hz : (iterateFree s dm p n).currentPosition.z
        = (iterScalar s dm p.attractorPosition.z
            (p.currentPosition.z, p.velocity.z) n).1 :=
      congrArg Prod.fst (iterateFree_z s dm p n)
    simp only [Vec3.distSq, Vec3.normSq, Vec3.dot, Vec3.sub_x, Vec3.sub_y,
      Vec3.sub_z, hx, hy, hz]
    ring
  have hbound : ∀ n,
      Vec3.distSq (iterateFree s dm p n).currentPosition p.attractorPosition
        ≤ ((energyAt s dm p.attractorPosition.x (p.currentPosition.x, p.velocity.x) 0
            + energyAt s dm p.attractorPosition.y (p.currentPosition.y, p.velocity.y) 0
            + energyAt s dm p.attractorPosition.z (p.currentPosition.z, p.velocity.z) 0)
              / (dm - (1 + dm - dm * s) ^ 2 / 4)) * dm ^ n := by
    intro n
    have b1 := scalar_sq_bound s dm p.attractorPosition.x
      (p.currentPosition.x, p.velocity.x) hc n
    have b2 := scalar_sq_bound s dm p.attractorPosition.y
      (p.currentPosition.y, p.velocity.y) hc n
    have b3 := scalar_sq_bound s dm p.attractorPosition.z
      (p.currentPosition.z, p.velocity.z) hc n
    rw [hdist n]
    have hsum : ((iterScalar s dm p.attractorPosition.x
            (p.currentPosition.x, p.velocity.x) n).1 - p.attractorPosition.x) ^ 2
          + ((iterScalar s dm p.attractorPosition.y
            (p.currentPosition.y, p.velocity.y) n).1 - p.attractorPosition.y) ^ 2
          + ((iterScalar s dm p.attractorPosition.z
            (p.currentPosition.z, p.velocity.z) n).1 - p.attractorPosition.z) ^ 2
        ≤ dm ^ n * (energyAt s dm p.attractorPosition.x
              (p.currentPosition.x, p.velocity.x) 0 / (dm - (1 + dm - dm * s) ^ 2 / 4))
          + dm ^ n * (energyAt s dm p.attractorPosition.y
              (p.currentPosition.y, p.velocity.y) 0 / (dm - (1 + dm - dm * s) ^ 2 / 4))
          + dm ^ n * (energyAt s dm p.attractorPosition.z
              (p.currentPosition.z, p.velocity.z) 0 / (dm - (1 + dm - dm * s) ^ 2 / 4)) := by
      linarith
    calc ((iterScalar s dm p.attractorPosition.x
            (p.currentPosition.x, p.velocity.x) n).1 - p.attractorPosition.x) ^ 2
          + ((iterScalar s dm p.attractorPosition.y
            (p.currentPosition.y, p.velocity.y) n).1 - p.attractorPosition.y) ^ 2
          + ((iterScalar s dm p.attractorPosition.z
            (p.currentPosition.z, p.velocity.z) n).1 - p.attractorPosition.z) ^ 2
        ≤ dm ^ n * (energyAt s dm p.attractorPosition.x
              (p.currentPosition.x, p.velocity.x) 0 / (dm - (1 + dm - dm * s) ^ 2 / 4))
          + dm ^ n * (energyAt s dm p.attractorPosition.y
              (p.currentPosition.y, p.velocity.y) 0 / (dm - (1 + dm - dm * s) ^ 2 / 4))
          + dm ^ n * (energyAt s dm p.attractorPosition.z
              (p.currentPosition.z, p.velocity.z) 0 / (dm - (1 + dm - dm * s) ^ 2 / 4)) :=
        hsum
      _ = ((energyAt s dm p.attractorPosition.x (p.currentPosition.x, p.velocity.x) 0
            + energyAt s dm p.attractorPosition.y (p.currentPosition.y, p.velocity.y) 0
            + energyAt s dm p.attractorPosition.z (p.currentPosition.z, p.velocity.z) 0)
              / (dm - (1 + dm - dm * s) ^ 2 / 4)) * dm ^ n := by
        ring
  refine ⟨⟨_, hKsum, hbound⟩, ?_, ?_⟩
  · exact geom_to_eps dm hdm0 hdm _ hKsum _ hbound
  · refine ⟨2 * ((energyAt s dm p.attractorPosition.x (p.currentPosition.x, p.velocity.x) 0
        + energyAt s dm p.attractorPosition.y (p.currentPosition.y, p.velocity.y) 0
        + energyAt s dm p.attractorPosition.z (p.currentPosition.z, p.velocity.z) 0)
          / (dm - (1 + dm - dm * s) ^ 2 / 4)) * (1 + 1/dm), ?_, ?_⟩
    · have h1 : (0:ℚ) < 1 + 1/dm := by positivity
      nlinarith
    · intro n hn
      cases n with
      | zero => exact absurd hn (by norm_num)
      | succ m =>
        have vx := scalar_vel_sq_bound s dm p.attractorPosition.x
          (p.currentPosition.x, p.velocity.x) hc m
        have vy := scalar_vel_sq_bound s dm p.attractorPosition.y
          (p.currentPosition.y, p.velocity.y) hc m
        have vz := scalar_vel_sq_bound s dm p.attractorPosition.z
          (p.currentPosition.z, p.velocity.z) hc m
        have hvx : (iterateFree s dm p (m + 1)).velocity.x
            = (iterScalar s dm p.attractorPosition.x
                (p.currentPosition.x, p.velocity.x) (m + 1)).2 :=
          congrArg Prod.snd (iterateFree_x s dm p (m + 1))
        have hvy : (iterateFree s dm p (m + 1)).velocity.y
            = (iterScalar s dm p.attractorPosition.y
                (p.currentPosition.y, p.velocity.y) (m + 1)).2 :=
          congrArg Prod.snd (iterateFree_y s dm p (m + 1))
        have hvz : (iterateFree s dm p (m + 1)).velocity.z
            = (iterScalar s dm p.attractorPosition.z
                (p.currentPosition.z, p.velocity.z) (m + 1)).2 :=
          congrArg Prod.snd (iterateFree_z s dm p (m + 1))
        have hv : Vec3.normSq (iterateFree s dm p (m + 1)).velocity
            = (iterScalar s dm p.attractorPosition.x
                  (p.currentPosition.x, p.velocity.x) (m + 1)).2 ^ 2
              + (iterScalar s dm p.attractorPosition.y
                  (p.currentPosition.y, p.velocity.y) (m + 1)).2 ^ 2
              + (iterScalar s dm p.attractorPosition.z
                  (p.currentPosition.z, p.velocity.z) (m + 1)).2 ^ 2 := by
          simp only [Vec3.normSq, Vec3.dot, hvx, hvy, hvz]
          ring
        have key : 2 * ((energyAt s dm p.attractorPosition.x
              (p.currentPosition.x, p.velocity.x) 0
            + energyAt s dm p.attractorPosition.y (p.currentPosition.y, p.velocity.y) 0
            + energyAt s dm p.attractorPosition.z (p.currentPosition.z, p.velocity.z) 0)
              / (dm - (1 + dm - dm * s) ^ 2 / 4)) * (1 + 1/dm) * dm ^ (m + 1)
            = 2 * (dm ^ (m + 1) * (energyAt s dm p.attractorPosition.x
                  (p.currentPosition.x, p.velocity.x) 0
                    / (dm - (1 + dm - dm * s) ^ 2 / 4)))
              + 2 * (dm ^ m * (energyAt s dm p.attractorPosition.x
                  (p.currentPosition.x, p.velocity.x) 0
                    / (dm - (1 + dm - dm * s) ^ 2 / 4)))
              + (2 * (dm ^ (m + 1) * (energyAt s dm p.attractorPosition.y
                  (p.currentPosition.y, p.velocity.y) 0
                    / (dm - (1 + dm - dm * s) ^ 2 / 4)))
              + 2 * (dm ^ m * (energyAt s dm p.attractorPosition.y
                  (p.currentPosition.y, p.velocity.y) 0
                    / (dm - (1 + dm - dm * s) ^ 2 / 4))))
              + (2 * (dm ^ (m + 1) * (energyAt s dm p.attractorPosition.z
                  (p.currentPosition.z, p.velocity.z) 0
                    / (dm - (1 + dm - dm * s) ^ 2 / 4)))
              + 2 * (dm ^ m * (energyAt s dm p.attractorPosition.z
                  (p.currentPosition.z, p.velocity.z) 0
                    / (dm - (1 + dm - dm * s) ^ 2 / 4)))) := by
          rw [geom_vel_key _ dm (ne_of_gt hdm0) m]
          ring
        rw [hv, key]
        linarith

/-- C9 witness at the default force parameters (damping 0.92, return
strength 0.02), which satisfy the underdamped-regime hypothesis. -/
theorem claim9_witness :
    ((23/25 : ℚ) < 1
      ∧ ((1 : ℚ) + 23/25 - 23/25 * (1/50)) ^ 2 < 4 * (23/25)
      ∧ w9Particle.velocity = Vec3.zero)
    ∧ (∀ ε : ℚ, 0 < ε → ∃ N, ∀ n, N ≤ n →
        Vec3.distSq (iterateFree (1/50) (23/25) w9Particle n).currentPosition
          w9Particle.attractorPosition ≤ ε * ε) := by
  refine ⟨⟨by norm_num, by norm_num, rfl⟩, ?_⟩
  exact (claim9_convergence_amended (1/50) (23/25) w9Particle rfl (by norm_num)
    (by norm_num)).2.1

end Claim9

end ImgMorph
